import Mathlib

/-!
Verification of the redutils helper library.

The definitions below are a shallow embedding of the Python sources:
- `src/source/utils.py` : `create_embeds` and `group_items_by`
- `src/source/paginator.py` : `Pages`, `PaginatorView`

Pure functions become Lean functions; the mutation of `Pages.cur_page` and of
the view buttons is modelled by explicit state passing; fallible remote calls
(`discord.Message.edit`) are modelled by an `Except` value supplied by the
environment.  Embeds are represented by the list of lines appended to their
description; the description string itself is recovered by `descOf`.
-/

/-! ## Embedding of `create_embeds` (src/source/utils.py, lines 81-148)

An output embed is modelled as the list of lines appended to it, in order.
The Python code keeps `embed.description`, which starts as `""` and grows by
`embed.description += fmt_line.format(**arg) + "\n"`; `descOf` recovers that
string from the list of lines, so `len(embed.description)` is
`(descOf cur).length`.  The template rendering `fmt_line.format(**arg)` is
abstracted as a given function `fmt` applied to the record. -/

def descOf (u : List String) : String :=
  u.foldl (fun acc line => acc ++ line ++ "\n") ""

/-- The fixed `max_desc_length = 4096` of `create_embeds`. -/
def maxDescLength : Nat := 4096

/-- The guard `per_page is not None and 1 > 0 and i % per_page == 0`
(line 133 of utils.py), with its redundant literal `1 > 0` kept. -/
def perPageTrigger (perPage : Option Nat) (i : Nat) : Bool :=
  match perPage with
  | some k => decide (1 > 0) && decide (i % k = 0)
  | none => false

/-- The guard `len(embed.description) + len(fmt_line.format(**arg)) + 1 >
max_desc_length` (line 125 of utils.py); `line` is the rendered record. -/
def sizeTrigger (cur : List String) (line : String) : Bool :=
  decide ((descOf cur).length + line.length + 1 > maxDescLength)

/-- One iteration of the `for i, arg in enumerate(arguments)` loop body of
`create_embeds`: on either trigger the current embed is appended to the
result and a fresh empty embed is opened, then the rendered line is added to
the current embed. -/
def batchStep (perPage : Option Nat) (i : Nat) (embeds : List (List String))
    (cur : List String) (line : String) : List (List String) × List String :=
  if sizeTrigger cur line then (embeds ++ [cur], [line])
  else if perPageTrigger perPage i then (embeds ++ [cur], [line])
  else (embeds, cur ++ [line])

/-- The whole loop of `create_embeds`, processing the remaining rendered
lines from index `i` with accumulated result `embeds` and current embed
`cur`. -/
def batchRun (perPage : Option Nat) : Nat → List (List String) → List String →
    List String → List (List String) × List String
  | _, embeds, cur, [] => (embeds, cur)
  | i, embeds, cur, line :: rest =>
      let s := batchStep perPage i embeds cur line
      batchRun perPage (i + 1) s.1 s.2 rest

/-- `create_embeds` (src/source/utils.py, lines 81-148).  Returns `none` on an
empty argument list (lines 112-113).  The flag `append_list` is set exactly on
the final loop iteration, i.e. exactly when `arguments` is non-empty, so after
the loop the current embed is always appended in that case. -/
def create_embeds {α : Type*} (fmt : α → String) (arguments : List α)
    (perPage : Option Nat) : Option (List (List String)) :=
  if arguments.isEmpty then none
  else
    let s := batchRun perPage 0 [] [] (arguments.map fmt)
    some (s.1 ++ [s.2])

/-! ## Embedding of `Pages` (src/source/paginator.py, lines 14-60) -/

/-- `Page` named tuple (paginator.py, lines 14-16). -/
structure Page where
  index : Nat
  content : String
deriving DecidableEq

/-- The `Pages` object: the page list plus the 1-based mutable cursor
`cur_page`. -/
structure Pages where
  pages : List String
  cur_page : Nat
deriving DecidableEq

/-- `Pages.__init__`: stores the page list and sets `cur_page = 1`. -/
def Pages.init (pages : List String) : Pages :=
  { pages := pages, cur_page := 1 }

/-- `Pages.total`: `len(self.pages)`. -/
def Pages.total (p : Pages) : Nat := p.pages.length

/-- `Pages.current_page`: `Page(self.cur_page, self.pages[self.cur_page - 1])`.
The out-of-range case of the Python index (which would raise) is defaulted to
`""`; it is unreachable under the cursor invariant. -/
def Pages.current_page (p : Pages) : Page :=
  { index := p.cur_page, content := p.pages.getD (p.cur_page - 1) "" }

/-- `Pages.next_page` (paginator.py, lines 32-38): at `cur_page == total`
returns `None` leaving the state unchanged; otherwise increments `cur_page`
and returns the new current page.  The Python property mutates `self`; here
the new state is returned alongside the result. -/
def Pages.next_page (p : Pages) : Option Page × Pages :=
  if p.cur_page = p.total then (none, p)
  else
    let p2 : Pages := { p with cur_page := p.cur_page + 1 }
    (some p2.current_page, p2)

/-- `Pages.previous_page` (paginator.py, lines 40-46): symmetric at the lower
boundary `cur_page == 1`. -/
def Pages.previous_page (p : Pages) : Option Page × Pages :=
  if p.cur_page = 1 then (none, p)
  else
    let p2 : Pages := { p with cur_page := p.cur_page - 1 }
    (some p2.current_page, p2)

/-- `Pages.first_page`: unconditionally sets `cur_page = 1`. -/
def Pages.first_page (p : Pages) : Page × Pages :=
  let p2 : Pages := { p with cur_page := 1 }
  (p2.current_page, p2)

/-- `Pages.last_page`: unconditionally sets `cur_page = total`. -/
def Pages.last_page (p : Pages) : Page × Pages :=
  let p2 : Pages := { p with cur_page := p.total }
  (p2.current_page, p2)

/-- The four navigation operations exposed by the paginator buttons. -/
inductive NavOp
  | first
  | previous
  | next
  | last
deriving DecidableEq

/-- State effect of one navigation operation on a `Pages` (the returned page
is dropped). -/
def Pages.apply (p : Pages) : NavOp → Pages
  | NavOp.first => p.first_page.2
  | NavOp.previous => p.previous_page.2
  | NavOp.next => p.next_page.2
  | NavOp.last => p.last_page.2

/-- State after a sequence of navigation operations. -/
def Pages.run (p : Pages) (ops : List NavOp) : Pages :=
  ops.foldl Pages.apply p

/-- C9: `create_embeds` on the empty argument list returns `None`
(utils.py, lines 112-113), not a list holding one empty embed. -/
theorem create_embeds_empty_none {α : Type*} (fmt : α → String)
    (perPage : Option Nat) : create_embeds fmt [] perPage = none := rfl

/-- Counterexample to C3: `next_page` at `cur_page == total` (and
`previous_page` at `cur_page == 1`) returns `None`, not the current page
content as the claim states. -/
theorem pages_boundary_returns_none_counterexample :
    (Pages.next_page { pages := ["a", "b"], cur_page := 2 }).1 = none ∧
    (Pages.previous_page { pages := ["a", "b"], cur_page := 1 }).1 = none ∧
    (Pages.next_page { pages := ["a", "b"], cur_page := 2 }).1 ≠
      some (Pages.current_page { pages := ["a", "b"], cur_page := 2 }) ∧
    (Pages.previous_page { pages := ["a", "b"], cur_page := 1 }).1 ≠
      some (Pages.current_page { pages := ["a", "b"], cur_page := 1 }) := by
  decide

/-- C3 (amended): `next_page` at `cur_page == total` and `previous_page` at
`cur_page == 1` leave the whole state unchanged — no wrap, no error — and
return `None` (a no-movement signal) rather than the current page content. -/
theorem pages_boundary_no_movement (p q : Pages) (hn : p.cur_page = p.total)
    (hp : q.cur_page = 1) :
    p.next_page = (none, p) ∧ q.previous_page = (none, q) := by
  constructor
  · unfold Pages.next_page
    rw [if_pos hn]
  · unfold Pages.previous_page
    rw [if_pos hp]

/-- Witness for `pages_boundary_no_movement` at a concrete two-page set. -/
theorem pages_boundary_no_movement_witness :
    ((⟨["a", "b"], 2⟩ : Pages).cur_page = (⟨["a", "b"], 2⟩ : Pages).total ∧
      (⟨["a", "b"], 1⟩ : Pages).cur_page = 1) ∧
    ((⟨["a", "b"], 2⟩ : Pages).next_page = (none, (⟨["a", "b"], 2⟩ : Pages)) ∧
      (⟨["a", "b"], 1⟩ : Pages).previous_page =
        (none, (⟨["a", "b"], 1⟩ : Pages))) :=
  ⟨⟨by decide, by decide⟩,
    pages_boundary_no_movement ⟨["a", "b"], 2⟩ ⟨["a", "b"], 1⟩
      (by decide) (by decide)⟩

/-- Counterexample to C1: with `per_page = 2`, single-character records (the
size trigger never comes close to firing) and 5 records, `create_embeds`
produces 4 units with item counts `[0, 2, 2, 1]` — the `i % per_page == 0`
trigger also fires at index 0, emitting a leading empty embed — not the 3
units of sizes `[2, 2, 1]` the claim states. -/
theorem create_embeds_five_records_counterexample :
    create_embeds (fun s : String => s) ["a", "b", "c", "d", "e"] (some 2)
      = some [[], ["a", "b"], ["c", "d"], ["e"]] ∧
    (create_embeds (fun s : String => s) ["a", "b", "c", "d", "e"]
        (some 2)).map (fun res => res.map List.length) ≠ some [2, 2, 1] := by
  decide

/-- C8 counterexample helper is not needed; list length distinguishes the
closing and non-closing results of `batchStep`. -/
theorem self_ne_append_singleton {α : Type*} (l : List α) (a : α) :
    l ≠ l ++ [a] := by
  intro h
  have := congrArg List.length h
  simp at this

/-- Counterexample to C8: with `per_page = 1`, at record index 1 the current
unit is closed and reopened even though the accumulated length plus the new
line plus one separator is far below 4096 — closing is not triggered only by
the character budget. -/
theorem batch_close_size_only_counterexample :
    batchStep (some 1) 1 [] ["a"] "b" = ([["a"]], ["b"]) ∧
    ¬ (descOf ["a"]).length + "b".length + 1 > maxDescLength := by
  decide

/-- C8 (amended): the loop body of `create_embeds` closes the current unit and
opens a new one before adding the rendered line exactly when the accumulated
description length plus the line length plus one separator exceeds 4096, or
`per_page` is set and the 0-based record index is a multiple of `per_page`. -/
theorem batch_close_iff_triggers (perPage : Option Nat) (i : Nat)
    (embeds : List (List String)) (cur : List String) (line : String) :
    batchStep perPage i embeds cur line = (embeds ++ [cur], [line]) ↔
      ((descOf cur).length + line.length + 1 > maxDescLength ∨
        ∃ k, perPage = some k ∧ i % k = 0) := by
  unfold batchStep
  by_cases hs : sizeTrigger cur line
  · rw [if_pos hs]
    simp only [sizeTrigger, decide_eq_true_eq] at hs
    simp [hs]
  · rw [if_neg hs]
    simp only [sizeTrigger, decide_eq_true_eq] at hs
    by_cases hp : perPageTrigger perPage i
    · rw [if_pos hp]
      cases perPage with
      | none => simp [perPageTrigger] at hp
      | some k =>
          simp only [perPageTrigger, Bool.and_eq_true, decide_eq_true_eq] at hp
          exact iff_of_true rfl (Or.inr ⟨k, rfl, hp.2⟩)
    · rw [if_neg hp]
      constructor
      · intro h
        exact absurd (congrArg Prod.fst h) (self_ne_append_singleton embeds cur)
      · intro h
        rcases h with h | ⟨k, hk, hmod⟩
        · exact absurd h hs
        · subst hk
          simp [perPageTrigger, hmod] at hp

/-- C1 (amended): with `per_page = 2`, a character budget the 5 short records
never approach, `create_embeds` produces 4 units of item counts
`[0, 2, 2, 1]`; in general, when the size trigger does not fire, a unit is
closed before adding a record exactly when the record's 0-based position is a
multiple of `per_page` — including position 0, which closes the still-empty
first unit. -/
theorem create_embeds_per_page_close_condition (k i : Nat)
    (embeds : List (List String)) (cur : List String) (line : String)
    (hs : sizeTrigger cur line = false) :
    (batchStep (some k) i embeds cur line = (embeds ++ [cur], [line]) ↔
      i % k = 0) ∧
    (create_embeds (fun s : String => s) ["a", "b", "c", "d", "e"]
        (some 2)).map (fun res => res.map List.length) = some [0, 2, 2, 1] := by
  constructor
  · unfold batchStep
    rw [if_neg (by simp [hs])]
    by_cases hp : i % k = 0
    · rw [if_pos (by simp [perPageTrigger, hp])]
      simp [hp]
    · rw [if_neg (by simp [perPageTrigger, hp])]
      constructor
      · intro h
        exact absurd (congrArg Prod.fst h) (self_ne_append_singleton embeds cur)
      · intro h
        exact absurd h hp
  · decide

/-- Witness for `create_embeds_per_page_close_condition` at `k = 2`, `i = 1`,
an empty result, current unit `["a"]` and line `"b"`. -/
theorem create_embeds_per_page_close_condition_witness :
    sizeTrigger ["a"] "b" = false ∧
    ((batchStep (some 2) 1 [] ["a"] "b" = ([] ++ [["a"]], ["b"]) ↔
        1 % 2 = 0) ∧
      (create_embeds (fun s : String => s) ["a", "b", "c", "d", "e"]
          (some 2)).map (fun res => res.map List.length) =
        some [0, 2, 2, 1]) :=
  ⟨by decide,
    create_embeds_per_page_close_condition 2 1 [] ["a"] "b" (by decide)⟩

/-- A 2048-character rendered line, used to exercise the size trigger. -/
def bigLine : String := String.mk (List.replicate 2048 'a')

/-- Unfolding equation of `batchRun` on the empty line list. -/
theorem batchRun_nil (p : Option Nat) (i : Nat) (embeds : List (List String))
    (cur : List String) : batchRun p i embeds cur [] = (embeds, cur) := rfl

/-- Unfolding equation of `batchRun` on a non-empty line list. -/
theorem batchRun_cons (p : Option Nat) (i : Nat) (embeds : List (List String))
    (cur : List String) (line : String) (rest : List String) :
    batchRun p i embeds cur (line :: rest) =
      batchRun p (i + 1) (batchStep p i embeds cur line).1
        (batchStep p i embeds cur line).2 rest := rfl

/-- The description of the empty embed is the empty string. -/
theorem descOf_nil : descOf [] = "" := rfl

/-- Appending a line to an embed appends the line plus separator to its
description. -/
theorem descOf_append (u : List String) (l : String) :
    descOf (u ++ [l]) = descOf u ++ l ++ "\n" := by
  simp [descOf, List.foldl_append]

/-- Length of the accumulated description after folding from `s`. -/
theorem descOf_go_length (u : List String) :
    ∀ s : String, (u.foldl (fun acc line => acc ++ line ++ "\n") s).length =
      s.length + (u.map (fun l => l.length + 1)).sum := by
  induction u with
  | nil => intro s; simp
  | cons l t ih =>
      intro s
      simp only [List.foldl_cons, List.map_cons, List.sum_cons]
      rw [ih, String.length_append, String.length_append]
      have h1 : ("\n" : String).length = 1 := rfl
      rw [h1]
      ring

/-- The description length of an embed is the sum of its line lengths, each
plus one separator character. -/
theorem descOf_length (u : List String) :
    (descOf u).length = (u.map (fun l => l.length + 1)).sum := by
  have := descOf_go_length u ""
  simpa [descOf] using this

/-- Counterexample to C2: three rendered lines of 2048 characters each fit
individually within the 4096-character budget (2049 <= 4096), yet with
`per_page = 3` the size trigger fires inside the block, so the result has 4
embeds, not `1 + ceil(3/3) = 2` as the claim predicts. -/
theorem create_embeds_line_fit_count_counterexample :
    bigLine.length + 1 ≤ 4096 ∧
    (create_embeds (fun s : String => s) [bigLine, bigLine, bigLine]
        (some 3)).map List.length = some 4 ∧
    1 + (3 + 3 - 1) / 3 ≠ 4 := by
  have hb : bigLine.length = 2048 := by
    simp only [bigLine]
    rw [String.mk_length, List.length_replicate]
  refine ⟨by rw [hb]; norm_num, ?_, by norm_num⟩
  have hsz0 : sizeTrigger [] bigLine = false := by
    simp [sizeTrigger, maxDescLength, descOf_nil, hb]
  have h0 : batchStep (some 3) 0 [] [] bigLine = ([[]], [bigLine]) := by
    simp [batchStep, hsz0, perPageTrigger]
  have hd : (descOf [bigLine]).length = 2049 := by
    have he : ([bigLine] : List String) = [] ++ [bigLine] := rfl
    rw [he, descOf_append, descOf_nil, String.length_append,
      String.length_append, hb]
    rfl
  have hsz1 : sizeTrigger [bigLine] bigLine = true := by
    simp [sizeTrigger, maxDescLength, hd, hb]
  have h1 : batchStep (some 3) 1 [[]] [bigLine] bigLine =
      ([[], [bigLine]], [bigLine]) := by
    simp [batchStep, hsz1]
  have h2 : batchStep (some 3) 2 [[], [bigLine]] [bigLine] bigLine =
      ([[], [bigLine], [bigLine]], [bigLine]) := by
    simp [batchStep, hsz1]
  have hrun : batchRun (some 3) 0 [] [] [bigLine, bigLine, bigLine] =
      ([[], [bigLine], [bigLine]], [bigLine]) := by
    rw [batchRun_cons, h0]
    simp only []
    rw [batchRun_cons]
    simp only [h1]
    rw [batchRun_cons]
    simp only [h2]
    rw [batchRun_nil]
  simp [create_embeds, hrun]

/-- The empty string has length zero. -/
theorem empty_str_length : ("" : String).length = 0 := rfl

/-- Pointwise bound on a mapped sum. -/
theorem map_sum_le_length_mul {α : Type*} (u : List α) (f : α → Nat) (c : Nat)
    (h : ∀ l ∈ u, f l ≤ c) : (u.map f).sum ≤ u.length * c := by
  induction u with
  | nil => simp
  | cons a t ih =>
      simp only [List.map_cons, List.sum_cons, List.length_cons]
      have ha := h a (by simp)
      have ht := ih (fun l hl => h l (by simp [hl]))
      calc f a + (t.map f).sum ≤ c + t.length * c := Nat.add_le_add ha ht
        _ = (t.length + 1) * c := by ring

/-- If every line of an embed satisfies the `per_page`-scaled fit bound, the
scaled description length is bounded by the line count times the budget. -/
theorem descOf_length_mul_bound (k : Nat) (u : List String)
    (h : ∀ l ∈ u, k * (l.length + 1) ≤ 4096) :
    k * (descOf u).length ≤ u.length * 4096 := by
  rw [descOf_length]
  calc k * (u.map fun l => l.length + 1).sum
      = (u.map fun l => k * (l.length + 1)).sum := by
        rw [← List.sum_map_mul_left]
    _ ≤ u.length * 4096 := map_sum_le_length_mul u _ 4096 h

/-- Core counting lemma for the `per_page` batching loop: starting from a
state whose current embed holds between 1 and `per_page` lines, with the
index congruent to the line count mod `per_page`, and all lines small enough
that a block of `per_page` of them always fits in the budget, the loop closes
a unit exactly at the indices divisible by `per_page`. -/
theorem batchRun_length_per_page (k : Nat) (hk : 1 ≤ k) :
    ∀ (rest : List String) (i : Nat) (embeds : List (List String))
      (cur : List String),
      (∀ l ∈ rest, k * (l.length + 1) ≤ 4096) →
      (∀ l ∈ cur, k * (l.length + 1) ≤ 4096) →
      1 ≤ cur.length → cur.length ≤ k → i % k = cur.length % k →
      (batchRun (some k) i embeds cur rest).1.length =
        embeds.length + (rest.length + cur.length - 1) / k := by
  intro rest
  induction rest with
  | nil =>
      intro i embeds cur _ _ h1 hle _
      rw [batchRun_nil]
      have hz : (List.length ([] : List String) + cur.length - 1) / k = 0 :=
        Nat.div_eq_of_lt (by simp; omega)
      rw [hz]
      rfl
  | cons line rest ih =>
      intro i embeds cur hrest hcur h1 hle hmod
      have hline := hrest line (by simp)
      have hrest2 : ∀ l ∈ rest, k * (l.length + 1) ≤ 4096 :=
        fun l hl => hrest l (by simp [hl])
      by_cases hz : i % k = 0
      · have hdvd : k ∣ cur.length := Nat.dvd_of_mod_eq_zero (by omega)
        have hck : cur.length = k := by
          have := Nat.le_of_dvd (by omega) hdvd
          omega
        have hstep : batchStep (some k) i embeds cur line =
            (embeds ++ [cur], [line]) := by
          unfold batchStep
          by_cases hs : sizeTrigger cur line
          · rw [if_pos hs]
          · rw [if_neg hs, if_pos (by simp [perPageTrigger, hz])]
        have hstep1 : (batchStep (some k) i embeds cur line).1 =
            embeds ++ [cur] := by rw [hstep]
        have hstep2 : (batchStep (some k) i embeds cur line).2 = [line] := by
          rw [hstep]
        have hihm : (i + 1) % k = ([line] : List String).length % k := by
          simp only [List.length_cons, List.length_nil]
          rw [Nat.add_mod, hz]
          simp [Nat.mod_mod_of_dvd]
        have hih := ih (i + 1) (embeds ++ [cur]) [line] hrest2
          (by intro l hl; simp at hl; subst hl; exact hline)
          (by simp) (by simpa using hk) hihm
        rw [batchRun_cons, hstep1, hstep2, hih]
        have e1 : rest.length + ([line] : List String).length - 1 =
            rest.length := by simp
        have e2 : (line :: rest).length + cur.length - 1 =
            rest.length + k := by
          simp only [List.length_cons]
          omega
        rw [e1, e2, Nat.add_div_right _ (by omega : 0 < k)]
        simp only [List.length_append, List.length_cons, List.length_nil]
        omega
      · have hck : cur.length < k := by
          by_contra hcontra
          have hceq : cur.length = k := by omega
          rw [hceq, Nat.mod_self] at hmod
          omega
        have hsz : sizeTrigger cur line = false := by
          have hb1 : k * (descOf cur).length ≤ cur.length * 4096 :=
            descOf_length_mul_bound k cur hcur
          have hb2 : k * ((descOf cur).length + line.length + 1) ≤ k * 4096 := by
            have he : k * ((descOf cur).length + line.length + 1) =
                k * (descOf cur).length + k * (line.length + 1) := by ring
            rw [he]
            calc k * (descOf cur).length + k * (line.length + 1)
                ≤ cur.length * 4096 + 4096 := Nat.add_le_add hb1 hline
              _ = (cur.length + 1) * 4096 := by ring
              _ ≤ k * 4096 := Nat.mul_le_mul_right _ (by omega)
          have hle2 : (descOf cur).length + line.length + 1 ≤ 4096 :=
            Nat.le_of_mul_le_mul_left hb2 (by omega)
          simp only [sizeTrigger, maxDescLength, decide_eq_false_iff_not,
            not_lt]
          exact hle2
        have hstep : batchStep (some k) i embeds cur line =
            (embeds, cur ++ [line]) := by
          unfold batchStep
          rw [if_neg (by simp [hsz]), if_neg (by simp [perPageTrigger, hz])]
        have hstep1 : (batchStep (some k) i embeds cur line).1 = embeds := by
          rw [hstep]
        have hstep2 : (batchStep (some k) i embeds cur line).2 =
            cur ++ [line] := by rw [hstep]
        have hml : (cur ++ [line]).length = cur.length + 1 := by simp
        have hihm : (i + 1) % k = (cur ++ [line]).length % k := by
          rw [hml, Nat.add_mod i 1 k, hmod, ← Nat.add_mod]
        have hih := ih (i + 1) embeds (cur ++ [line]) hrest2
          (by
            intro l hl
            rcases List.mem_append.mp hl with hin | hin
            · exact hcur l hin
            · simp at hin; subst hin; exact hline)
          (by simp) (by rw [hml]; omega) hihm
        rw [batchRun_cons, hstep1, hstep2, hih, hml]
        have e1 : rest.length + (cur.length + 1) - 1 =
            (line :: rest).length + cur.length - 1 := by
          simp only [List.length_cons]
          omega
        rw [e1]

/-- A batching step either closes the current unit or leaves the result list
unchanged. -/
theorem batchStep_fst (p : Option Nat) (i : Nat) (embeds : List (List String))
    (cur : List String) (line : String) :
    (batchStep p i embeds cur line).1 = embeds ++ [cur] ∨
      (batchStep p i embeds cur line).1 = embeds := by
  unfold batchStep
  by_cases hs : sizeTrigger cur line
  · rw [if_pos hs]
    exact Or.inl rfl
  · rw [if_neg hs]
    by_cases hp : perPageTrigger p i
    · rw [if_pos hp]
      exact Or.inl rfl
    · rw [if_neg hp]
      exact Or.inr rfl

/-- The batching loop only ever appends to the accumulated result list. -/
theorem batchRun_extends (p : Option Nat) :
    ∀ (rest : List String) (i : Nat) (embeds : List (List String))
      (cur : List String),
      ∃ t, (batchRun p i embeds cur rest).1 = embeds ++ t := by
  intro rest
  induction rest with
  | nil =>
      intro i embeds cur
      exact ⟨[], by rw [batchRun_nil]; simp⟩
  | cons line rest ih =>
      intro i embeds cur
      rw [batchRun_cons]
      obtain ⟨t, ht⟩ := ih (i + 1) (batchStep p i embeds cur line).1
        (batchStep p i embeds cur line).2
      rcases batchStep_fst p i embeds cur line with h | h
      · exact ⟨[cur] ++ t, by rw [ht, h, List.append_assoc]⟩
      · exact ⟨t, by rw [ht, h]⟩

/-- C2 (amended): for a non-empty argument list with `per_page = k ≥ 1`, if
every rendered line is short enough that `k` of them always fit in the
4096-character budget together (`k * (length + 1) ≤ 4096`, rather than just
each line fitting individually), the `per_page` trigger fires on record 0, so
the first embed of the result has an empty description and the result holds
`1 + ceil(n / k)` embeds for `n` records. -/
theorem create_embeds_per_page_embed_count {α : Type*} (fmt : α → String)
    (args : List α) (k : Nat) (hk : 1 ≤ k) (hne : args ≠ [])
    (hfit : ∀ a ∈ args, k * ((fmt a).length + 1) ≤ 4096) :
    ∃ res, create_embeds fmt args (some k) = some res ∧
      res.length = 1 + (args.length + k - 1) / k ∧
      res.head? = some [] := by
  cases args with
  | nil => exact absurd rfl hne
  | cons a args =>
      have hl0 := hfit a (by simp)
      have hrest : ∀ l ∈ args.map fmt, k * (l.length + 1) ≤ 4096 := by
        intro l hl
        obtain ⟨x, hx, hfx⟩ := List.mem_map.mp hl
        rw [← hfx]
        exact hfit x (by simp [hx])
      have hsz0 : sizeTrigger [] (fmt a) = false := by
        simp only [sizeTrigger, maxDescLength, descOf_nil, empty_str_length,
          decide_eq_false_iff_not, not_lt]
        have := Nat.le_mul_of_pos_left ((fmt a).length + 1)
          (show 0 < k by omega)
        omega
      have h0 : batchStep (some k) 0 [] [] (fmt a) = ([[]], [fmt a]) := by
        unfold batchStep
        rw [if_neg (by simp [hsz0]), if_pos (by simp [perPageTrigger])]
        rfl
      have hce : create_embeds fmt (a :: args) (some k) =
          some ((batchRun (some k) 1 [[]] [fmt a] (args.map fmt)).1 ++
            [(batchRun (some k) 1 [[]] [fmt a] (args.map fmt)).2]) := by
        simp only [create_embeds]
        rw [if_neg (by simp), List.map_cons, batchRun_cons, h0]
      have hrun := batchRun_length_per_page k hk (args.map fmt) 1 [[]] [fmt a]
        hrest (by intro l hl; simp at hl; subst hl; exact hl0)
        (by simp) (by simpa using hk) (by simp)
      have hrun2 : (batchRun (some k) 1 [[]] [fmt a] (args.map fmt)).1.length =
          1 + args.length / k := by
        rw [hrun]
        have e1 : (args.map fmt).length + ([fmt a] : List String).length - 1 =
            args.length := by simp
        rw [e1]
        simp
      obtain ⟨t, ht⟩ := batchRun_extends (some k) (args.map fmt) 1 [[]] [fmt a]
      refine ⟨_, hce, ?_, ?_⟩
      · rw [List.length_append, hrun2]
        have e2 : (a :: args).length + k - 1 = args.length + k := by
          simp only [List.length_cons]
          omega
        rw [e2, Nat.add_div_right _ (show 0 < k by omega)]
        simp only [List.length_cons, List.length_nil]
        omega
      · rw [ht]
        simp

/-- Witness for `create_embeds_per_page_embed_count` at `k = 2` with 5 short
records. -/
theorem create_embeds_per_page_embed_count_witness :
    (1 ≤ 2 ∧ (["a", "b", "c", "d", "e"] : List String) ≠ [] ∧
      ∀ a ∈ (["a", "b", "c", "d", "e"] : List String),
        2 * (((fun s : String => s) a).length + 1) ≤ 4096) ∧
    ∃ res, create_embeds (fun s : String => s) ["a", "b", "c", "d", "e"]
        (some 2) = some res ∧
      res.length =
        1 + ((["a", "b", "c", "d", "e"] : List String).length + 2 - 1) / 2 ∧
      res.head? = some [] :=
  ⟨⟨by decide, by decide, by decide⟩,
    create_embeds_per_page_embed_count (fun s : String => s)
      ["a", "b", "c", "d", "e"] 2 (by decide) (by decide) (by decide)⟩

/-- One navigation operation preserves the page list, hence the total. -/
theorem pages_apply_total (p : Pages) (op : NavOp) :
    (p.apply op).total = p.total := by
  cases op <;>
    simp only [Pages.apply, Pages.first_page, Pages.last_page,
      Pages.next_page, Pages.previous_page, Pages.total] <;>
    split <;> rfl

/-- One navigation operation preserves the cursor invariant. -/
theorem pages_apply_invariant (p : Pages) (op : NavOp)
    (h1 : 1 ≤ p.cur_page) (h2 : p.cur_page ≤ p.total) (h3 : 1 ≤ p.total) :
    1 ≤ (p.apply op).cur_page ∧ (p.apply op).cur_page ≤ (p.apply op).total := by
  rw [pages_apply_total]
  cases op with
  | first =>
      simp only [Pages.apply, Pages.first_page]
      exact ⟨le_refl 1, h3⟩
  | previous =>
      simp only [Pages.apply]
      unfold Pages.previous_page
      split
      · exact ⟨h1, h2⟩
      · rename_i hne
        show 1 ≤ p.cur_page - 1 ∧ p.cur_page - 1 ≤ p.total
        omega
  | next =>
      simp only [Pages.apply]
      unfold Pages.next_page
      split
      · exact ⟨h1, h2⟩
      · rename_i hne
        show 1 ≤ p.cur_page + 1 ∧ p.cur_page + 1 ≤ p.total
        omega
  | last =>
      simp only [Pages.apply, Pages.last_page]
      exact ⟨h3, le_refl _⟩

/-- A sequence of navigation operations preserves the cursor invariant. -/
theorem pages_run_invariant (ops : List NavOp) :
    ∀ (p : Pages), 1 ≤ p.cur_page → p.cur_page ≤ p.total → 1 ≤ p.total →
      1 ≤ (p.run ops).cur_page ∧ (p.run ops).cur_page ≤ (p.run ops).total := by
  induction ops with
  | nil => intro p h1 h2 _; exact ⟨h1, h2⟩
  | cons op ops ih =>
      intro p h1 h2 h3
      have hstep := pages_apply_invariant p op h1 h2 h3
      have htot : (p.apply op).total = p.total := pages_apply_total p op
      have := ih (p.apply op) hstep.1 hstep.2 (htot ▸ h3)
      simpa [Pages.run, List.foldl_cons] using this

/-- C4: starting from a non-empty page list, after any sequence of
navigation operations the cursor invariant `1 ≤ cur_page ≤ total` holds, and
the current page index is always in `[1, total]`. -/
theorem pages_cursor_invariant (pgs : List String) (ops : List NavOp)
    (h : pgs ≠ []) :
    1 ≤ ((Pages.init pgs).run ops).cur_page ∧
    ((Pages.init pgs).run ops).cur_page ≤ ((Pages.init pgs).run ops).total ∧
    1 ≤ ((Pages.init pgs).run ops).current_page.index ∧
    ((Pages.init pgs).run ops).current_page.index ≤
      ((Pages.init pgs).run ops).total := by
  have h3 : 1 ≤ (Pages.init pgs).total := by
    simp only [Pages.init, Pages.total]
    exact List.length_pos.mpr h
  have := pages_run_invariant ops (Pages.init pgs) (le_refl 1) h3 h3
  exact ⟨this.1, this.2, this.1, this.2⟩

/-- Witness for `pages_cursor_invariant` on a one-page set after one
navigation. -/
theorem pages_cursor_invariant_witness :
    (["a"] : List String) ≠ [] ∧
    (1 ≤ ((Pages.init ["a"]).run [NavOp.next]).cur_page ∧
      ((Pages.init ["a"]).run [NavOp.next]).cur_page ≤
        ((Pages.init ["a"]).run [NavOp.next]).total ∧
      1 ≤ ((Pages.init ["a"]).run [NavOp.next]).current_page.index ∧
      ((Pages.init ["a"]).run [NavOp.next]).current_page.index ≤
        ((Pages.init ["a"]).run [NavOp.next]).total) :=
  ⟨by decide, pages_cursor_invariant ["a"] [NavOp.next] (by decide)⟩

/-! ## Embedding of `PaginatorView` (src/source/paginator.py, lines 124-245)

The view owns four buttons, `children[0..3]` = first, previous, next, last,
each carrying a style and a disabled flag.  `@discord.ui.button` creates each
of them with `style=green` and the default `disabled=False`.  The remote
`interaction.message.edit` and `self.message.edit` calls are modelled by an
`Except TransportError Unit` outcome supplied by the environment; raising is
modelled by returning `Except.error`. -/

/-- Button styles used by the view: green while active, grey on timeout. -/
inductive ButtonStyle
  | green
  | grey
deriving DecidableEq

/-- One navigation button: its style and its disabled flag. -/
structure NavButton where
  style : ButtonStyle
  disabled : Bool
deriving DecidableEq

/-- The view's four buttons, in `children` order. -/
structure ViewButtons where
  first : NavButton
  previous : NavButton
  next : NavButton
  last : NavButton
deriving DecidableEq

/-- The buttons as created by the `@discord.ui.button` decorators:
green style, enabled. -/
def defaultButtons : ViewButtons :=
  { first := { style := ButtonStyle.green, disabled := false },
    previous := { style := ButtonStyle.green, disabled := false },
    next := { style := ButtonStyle.green, disabled := false },
    last := { style := ButtonStyle.green, disabled := false } }

/-- `PaginatorView.__init__` (paginator.py, lines 142-144): starting from the
decorator defaults, disable `children[0]` and `children[1]` when
`cur_page == 1`. -/
def viewInit (p : Pages) : ViewButtons :=
  if p.cur_page = 1 then
    { defaultButtons with
        first := { defaultButtons.first with disabled := true },
        previous := { defaultButtons.previous with disabled := true } }
  else defaultButtons

/-- `PaginatorView._lock` (paginator.py, lines 146-163): recompute the
disabled flags from the cursor, leaving styles unchanged. -/
def lock (p : Pages) (b : ViewButtons) : ViewButtons :=
  if p.cur_page = p.total then
    { first := { b.first with disabled := false },
      previous := { b.previous with disabled := false },
      next := { b.next with disabled := true },
      last := { b.last with disabled := true } }
  else if p.cur_page = 1 then
    { first := { b.first with disabled := true },
      previous := { b.previous with disabled := true },
      next := { b.next with disabled := false },
      last := { b.last with disabled := false } }
  else if 1 < p.cur_page ∧ p.cur_page < p.total then
    { first := { b.first with disabled := false },
      previous := { b.previous with disabled := false },
      next := { b.next with disabled := false },
      last := { b.last with disabled := false } }
  else b

/-- The transport failure that `discord.Message.edit` can raise
(`discord.HTTPException`). -/
inductive TransportError
  | httpException
deriving DecidableEq

/-- The ephemeral reply `interaction_check` sends to a non-owner actor
(paginator.py, lines 173-176). -/
inductive EphemeralReply
  | notYourInteraction
deriving DecidableEq

/-- A live pagination session: the owner's user id (`ctx.author.id`), the
page state and the view buttons. -/
structure Session where
  owner : Nat
  pages : Pages
  buttons : ViewButtons
deriving DecidableEq

/-- Delivery of one button press to the view.  `interaction_check`
(paginator.py, lines 171-178) rejects an actor other than the owner by
sending an ephemeral reply and returning `False`, so the button callback
never runs: no state change and no message edit.  For the owner, the
callback navigates, re-locks the buttons and edits the message; the edit
outcome is the supplied `edit` value and an edit failure propagates (the
call is not wrapped in any handler).  The returned `Bool` records whether
the message edit was performed. -/
def button_press (s : Session) (actor : Nat) (op : NavOp)
    (edit : Except TransportError Unit) :
    Except TransportError (Session × Bool × Option EphemeralReply) :=
  if actor = s.owner then
    let pages2 := s.pages.apply op
    let s2 : Session :=
      { owner := s.owner, pages := pages2, buttons := lock pages2 s.buttons }
    match edit with
    | Except.ok _ => Except.ok (s2, true, none)
    | Except.error e => Except.error e
  else
    Except.ok (s, false, some EphemeralReply.notYourInteraction)

/-- The button state set by `on_timeout`: every child greyed and disabled. -/
def expiredButtons : ViewButtons :=
  { first := { style := ButtonStyle.grey, disabled := true },
    previous := { style := ButtonStyle.grey, disabled := true },
    next := { style := ButtonStyle.grey, disabled := true },
    last := { style := ButtonStyle.grey, disabled := true } }

/-- `PaginatorView.on_timeout` (paginator.py, lines 180-185): grey out and
disable every child, then best-effort edit the message inside
`suppress(discord.HTTPException)`, so a transport failure of this final
render is swallowed and the method always returns normally. -/
def on_timeout (s : Session) (edit : Except TransportError Unit) :
    Except TransportError Session :=
  let s2 : Session := { s with buttons := expiredButtons }
  match edit with
  | Except.ok _ => Except.ok s2
  | Except.error TransportError.httpException => Except.ok s2

/-- C5: with at least two pages, the view construction at `cur_page = 1`
disables first/previous and leaves next/last enabled; and after `_lock`
runs under the cursor invariant, the enablement matches the cursor exactly:
at the lower boundary first/previous are disabled and next/last enabled, at
the upper boundary next/last are disabled and first/previous enabled, and
strictly inside all four are enabled. -/
theorem paginator_view_enablement (pgs : List String) (p : Pages)
    (b : ViewButtons) (hpgs : 2 ≤ (Pages.init pgs).total) (ht : 2 ≤ p.total)
    (h1 : 1 ≤ p.cur_page) (h2 : p.cur_page ≤ p.total) :
    ((viewInit (Pages.init pgs)).first.disabled = true ∧
      (viewInit (Pages.init pgs)).previous.disabled = true ∧
      (viewInit (Pages.init pgs)).next.disabled = false ∧
      (viewInit (Pages.init pgs)).last.disabled = false) ∧
    (p.cur_page = 1 →
      (lock p b).first.disabled = true ∧
      (lock p b).previous.disabled = true ∧
      (lock p b).next.disabled = false ∧
      (lock p b).last.disabled = false) ∧
    (p.cur_page = p.total →
      (lock p b).first.disabled = false ∧
      (lock p b).previous.disabled = false ∧
      (lock p b).next.disabled = true ∧
      (lock p b).last.disabled = true) ∧
    (1 < p.cur_page → p.cur_page < p.total →
      (lock p b).first.disabled = false ∧
      (lock p b).previous.disabled = false ∧
      (lock p b).next.disabled = false ∧
      (lock p b).last.disabled = false) := by
  refine ⟨?_, ?_, ?_, ?_⟩
  · simp [viewInit, Pages.init, defaultButtons]
  · intro hc
    have hnt : ¬ (1 : Nat) = p.total := by omega
    simp [lock, hnt, hc]
  · intro hc
    simp [lock, hc]
  · intro hlo hhi
    have hn1 : ¬ p.cur_page = p.total := by omega
    have hn2 : ¬ p.cur_page = 1 := by omega
    simp [lock, hn1, hn2, hlo, hhi]

/-- Witness for `paginator_view_enablement` on a three-page set at
cursor 2. -/
theorem paginator_view_enablement_witness :
    (2 ≤ (Pages.init ["a", "b"]).total ∧
      2 ≤ (⟨["a", "b", "c"], 2⟩ : Pages).total ∧
      1 ≤ (⟨["a", "b", "c"], 2⟩ : Pages).cur_page ∧
      (⟨["a", "b", "c"], 2⟩ : Pages).cur_page ≤
        (⟨["a", "b", "c"], 2⟩ : Pages).total) ∧
    (((viewInit (Pages.init ["a", "b"])).first.disabled = true ∧
      (viewInit (Pages.init ["a", "b"])).previous.disabled = true ∧
      (viewInit (Pages.init ["a", "b"])).next.disabled = false ∧
      (viewInit (Pages.init ["a", "b"])).last.disabled = false) ∧
    ((⟨["a", "b", "c"], 2⟩ : Pages).cur_page = 1 →
      (lock ⟨["a", "b", "c"], 2⟩ defaultButtons).first.disabled = true ∧
      (lock ⟨["a", "b", "c"], 2⟩ defaultButtons).previous.disabled = true ∧
      (lock ⟨["a", "b", "c"], 2⟩ defaultButtons).next.disabled = false ∧
      (lock ⟨["a", "b", "c"], 2⟩ defaultButtons).last.disabled = false) ∧
    ((⟨["a", "b", "c"], 2⟩ : Pages).cur_page =
        (⟨["a", "b", "c"], 2⟩ : Pages).total →
      (lock ⟨["a", "b", "c"], 2⟩ defaultButtons).first.disabled = false ∧
      (lock ⟨["a", "b", "c"], 2⟩ defaultButtons).previous.disabled = false ∧
      (lock ⟨["a", "b", "c"], 2⟩ defaultButtons).next.disabled = true ∧
      (lock ⟨["a", "b", "c"], 2⟩ defaultButtons).last.disabled = true) ∧
    (1 < (⟨["a", "b", "c"], 2⟩ : Pages).cur_page →
      (⟨["a", "b", "c"], 2⟩ : Pages).cur_page <
        (⟨["a", "b", "c"], 2⟩ : Pages).total →
      (lock ⟨["a", "b", "c"], 2⟩ defaultButtons).first.disabled = false ∧
      (lock ⟨["a", "b", "c"], 2⟩ defaultButtons).previous.disabled = false ∧
      (lock ⟨["a", "b", "c"], 2⟩ defaultButtons).next.disabled = false ∧
      (lock ⟨["a", "b", "c"], 2⟩ defaultButtons).last.disabled = false)) :=
  ⟨⟨by decide, by decide, by decide, by decide⟩,
    paginator_view_enablement ["a", "b"] ⟨["a", "b", "c"], 2⟩ defaultButtons
      (by decide) (by decide) (by decide) (by decide)⟩

/-- C6: a button press from an actor who is not the session owner is
rejected by `interaction_check`: the session (cursor included) is unchanged,
no message edit happens, and the rejection is reported ephemerally to the
actor. -/
theorem interaction_check_rejects_non_owner (s : Session) (actor : Nat)
    (op : NavOp) (edit : Except TransportError Unit) (h : actor ≠ s.owner) :
    button_press s actor op edit =
      Except.ok (s, false, some EphemeralReply.notYourInteraction) := by
  unfold button_press
  rw [if_neg h]

/-- Witness for `interaction_check_rejects_non_owner` with owner 1 and
actor 2. -/
theorem interaction_check_rejects_non_owner_witness :
    (2 ≠ (⟨1, Pages.init ["a", "b"], defaultButtons⟩ : Session).owner) ∧
    button_press ⟨1, Pages.init ["a", "b"], defaultButtons⟩ 2 NavOp.next
        (Except.ok ()) =
      Except.ok (⟨1, Pages.init ["a", "b"], defaultButtons⟩, false,
        some EphemeralReply.notYourInteraction) :=
  ⟨by decide,
    interaction_check_rejects_non_owner
      ⟨1, Pages.init ["a", "b"], defaultButtons⟩ 2 NavOp.next
      (Except.ok ()) (by decide)⟩

/-- C7: on timeout every one of the four buttons is greyed and disabled and
the final best-effort edit swallows a transport failure (`on_timeout`
returns normally either way), while a transport failure during an owner's
normal navigation propagates out of the button callback. -/
theorem on_timeout_disables_and_suppresses (s t : Session)
    (edit : Except TransportError Unit) (actor : Nat) (op : NavOp)
    (e : TransportError) (hact : actor = t.owner) :
    on_timeout s edit = Except.ok { s with buttons := expiredButtons } ∧
    (expiredButtons.first.disabled = true ∧
      expiredButtons.previous.disabled = true ∧
      expiredButtons.next.disabled = true ∧
      expiredButtons.last.disabled = true ∧
      expiredButtons.first.style = ButtonStyle.grey ∧
      expiredButtons.previous.style = ButtonStyle.grey ∧
      expiredButtons.next.style = ButtonStyle.grey ∧
      expiredButtons.last.style = ButtonStyle.grey) ∧
    button_press t actor op (Except.error e) = Except.error e := by
  refine ⟨?_, by decide, ?_⟩
  · cases edit with
    | ok u => rfl
    | error e2 => cases e2; rfl
  · unfold button_press
    rw [if_pos hact]

/-- Witness for `on_timeout_disables_and_suppresses` with a failing final
edit and a failing navigation edit. -/
theorem on_timeout_disables_and_suppresses_witness :
    (1 = (⟨1, Pages.init ["a", "b"], defaultButtons⟩ : Session).owner) ∧
    (on_timeout ⟨2, Pages.init ["a", "b"], defaultButtons⟩
        (Except.error TransportError.httpException) =
      Except.ok { (⟨2, Pages.init ["a", "b"], defaultButtons⟩ : Session) with
        buttons := expiredButtons } ∧
    (expiredButtons.first.disabled = true ∧
      expiredButtons.previous.disabled = true ∧
      expiredButtons.next.disabled = true ∧
      expiredButtons.last.disabled = true ∧
      expiredButtons.first.style = ButtonStyle.grey ∧
      expiredButtons.previous.style = ButtonStyle.grey ∧
      expiredButtons.next.style = ButtonStyle.grey ∧
      expiredButtons.last.style = ButtonStyle.grey) ∧
    button_press ⟨1, Pages.init ["a", "b"], defaultButtons⟩ 1 NavOp.next
        (Except.error TransportError.httpException) =
      Except.error TransportError.httpException) :=
  ⟨by decide,
    on_timeout_disables_and_suppresses
      ⟨2, Pages.init ["a", "b"], defaultButtons⟩
      ⟨1, Pages.init ["a", "b"], defaultButtons⟩
      (Except.error TransportError.httpException) 1 NavOp.next
      TransportError.httpException (by decide)⟩

/-! ## Embedding of `group_items_by` (src/source/utils.py, lines 227-278)

The Python dict `groups` preserves insertion order, so it is modelled as an
association list in first-occurrence order.  The attribute chain
`get_attr(item, key.split("."))` is abstracted as a key function `α → κ`, and
`key_path` as a list of such functions.  Note the body of
`if value not in groups:` both creates the bucket and appends the item, so an
item whose key was already seen is dropped. -/

/-- The loop body of the grouping pass: a first-seen key adds a new singleton
bucket, a repeated key leaves the groups unchanged (the item is dropped). -/
def groupStep {α κ : Type*} [DecidableEq κ] (key : α → κ)
    (groups : List (κ × List α)) (item : α) : List (κ × List α) :=
  let v := key item
  if v ∈ groups.map Prod.fst then groups
  else groups ++ [(v, [item])]

/-- The `groups` dict built by the first grouping pass of `group_items_by`
(utils.py, lines 266-271). -/
def buildGroups {α κ : Type*} [DecidableEq κ] (key : α → κ)
    (items : List α) : List (κ × List α) :=
  items.foldl (groupStep key) []

/-- `group_items_by` (utils.py, lines 227-278): an empty key path returns the
single group `[items]`; otherwise the items are grouped by the first key and
each bucket is recursively grouped by the remaining keys, concatenating the
results in order. -/
def group_items_by {α κ : Type*} [DecidableEq κ] (items : List α)
    (key_path : List (α → κ)) : List (List α) :=
  match key_path with
  | [] => [items]
  | key :: sub =>
      ((buildGroups key items).map (fun pr => group_items_by pr.2 sub)).flatten

/-- Every bucket produced by the grouping fold is a singleton, since items
with an already-seen key are dropped. -/
theorem buildGroups_fold_singletons {α κ : Type*} [DecidableEq κ]
    (key : α → κ) :
    ∀ (items : List α) (acc : List (κ × List α)),
      (∀ pr ∈ acc, pr.2.length = 1) →
      ∀ pr ∈ items.foldl (groupStep key) acc, pr.2.length = 1 := by
  intro items
  induction items with
  | nil => intro acc hacc; simpa using hacc
  | cons a t ih =>
      intro acc hacc
      rw [List.foldl_cons]
      refine ih (groupStep key acc a) ?_
      intro pr hpr
      unfold groupStep at hpr
      by_cases hv : key a ∈ acc.map Prod.fst
      · rw [if_pos hv] at hpr
        exact hacc pr hpr
      · rw [if_neg hv] at hpr
        rcases List.mem_append.mp hpr with hin | hin
        · exact hacc pr hin
        · simp only [List.mem_singleton] at hin
          simp [hin]

/-- The keys of the grouping fold stay without duplicates, and as a finite
set they are the starting keys together with the keys of the processed
items. -/
theorem buildGroups_fold_keys {α κ : Type*} [DecidableEq κ] (key : α → κ) :
    ∀ (items : List α) (acc : List (κ × List α)),
      (acc.map Prod.fst).Nodup →
      ((items.foldl (groupStep key) acc).map Prod.fst).Nodup ∧
      ((items.foldl (groupStep key) acc).map Prod.fst).toFinset =
        (acc.map Prod.fst).toFinset ∪ (items.map key).toFinset := by
  intro items
  induction items with
  | nil =>
      intro acc hacc
      simp [hacc]
  | cons a t ih =>
      intro acc hacc
      rw [List.foldl_cons]
      by_cases hv : key a ∈ acc.map Prod.fst
      · have hstep : groupStep key acc a = acc := by
          unfold groupStep
          rw [if_pos hv]
        rw [hstep]
        obtain ⟨hnd, hset⟩ := ih acc hacc
        refine ⟨hnd, ?_⟩
        rw [hset]
        have hvf : key a ∈ (acc.map Prod.fst).toFinset := by
          simpa using hv
        simp only [List.map_cons, List.toFinset_cons]
        rw [Finset.union_insert, Finset.insert_eq_self.mpr]
        exact Finset.mem_union_left _ hvf
      · have hstep : groupStep key acc a = acc ++ [(key a, [a])] := by
          unfold groupStep
          rw [if_neg hv]
        rw [hstep]
        have hnd2 : ((acc ++ [(key a, [a])]).map Prod.fst).Nodup := by
          rw [List.map_append]
          simp only [List.map_cons, List.map_nil]
          rw [List.nodup_append]
          refine ⟨hacc, List.nodup_singleton _, ?_⟩
          intro x hx
          simp only [List.mem_singleton]
          intro hxe
          rw [hxe] at hx
          exact hv hx
        obtain ⟨hnd, hset⟩ := ih (acc ++ [(key a, [a])]) hnd2
        refine ⟨hnd, ?_⟩
        rw [hset, List.map_append]
        simp only [List.map_cons, List.map_nil, List.toFinset_append,
          List.toFinset_cons, List.toFinset_nil]
        rw [Finset.union_assoc]
        congr 1

/-- A group containing exactly one item grouped by any key path yields the
single group holding that item. -/
theorem group_items_by_singleton {α κ : Type*} [DecidableEq κ] (x : α) :
    ∀ kp : List (α → κ), group_items_by [x] kp = [[x]] := by
  intro kp
  induction kp with
  | nil => rfl
  | cons key sub ih =>
      have hb : buildGroups key [x] = [(key x, [x])] := by
        unfold buildGroups groupStep
        simp
      simp only [group_items_by, hb, List.map_cons, List.map_nil,
        List.flatten, List.append_nil]
      simpa using ih

/-- The summed lengths of a list of singletons is its length. -/
theorem map_length_sum_singletons {α : Type*} :
    ∀ L : List (List α), (∀ g ∈ L, g.length = 1) →
      (L.map List.length).sum = L.length := by
  intro L
  induction L with
  | nil => intro _; rfl
  | cons g t ih =>
      intro h
      simp only [List.map_cons, List.sum_cons, List.length_cons]
      rw [h g (by simp), ih (fun g2 hg2 => h g2 (by simp [hg2]))]
      omega

/-- C10: with a non-empty key path, every group produced by
`group_items_by` is a singleton (later items with an already-seen key are
dropped), and the total number of surviving items equals the number of
distinct values of the first key. -/
theorem group_items_by_singletons {α κ : Type*} [DecidableEq κ]
    (items : List α) (key : α → κ) (sub : List (α → κ)) :
    (∀ g ∈ group_items_by items (key :: sub), g.length = 1) ∧
    ((group_items_by items (key :: sub)).map List.length).sum =
      (items.map key).dedup.length := by
  have hsing : ∀ pr ∈ buildGroups key items, pr.2.length = 1 :=
    buildGroups_fold_singletons key items [] (by intro pr hpr; simp at hpr)
  have hkeys := buildGroups_fold_keys key items [] (by simp)
  have hall : ∀ g ∈ group_items_by items (key :: sub), g.length = 1 := by
    intro g hg
    simp only [group_items_by] at hg
    obtain ⟨L, hL, hgL⟩ := List.mem_flatten.mp hg
    obtain ⟨pr, hpr, hLpr⟩ := List.mem_map.mp hL
    obtain ⟨x, hx⟩ := List.length_eq_one.mp (hsing pr hpr)
    rw [← hLpr, hx, group_items_by_singleton] at hgL
    simp at hgL
    rw [hgL]
    rfl
  refine ⟨hall, ?_⟩
  rw [map_length_sum_singletons _ hall]
  have hflat : (group_items_by items (key :: sub)).length =
      (buildGroups key items).length := by
    simp only [group_items_by]
    rw [List.length_flatten]
    have : ∀ L ∈ (buildGroups key items).map
        (fun pr => group_items_by pr.2 sub), L.length = 1 := by
      intro L hL
      obtain ⟨pr, hpr, hLpr⟩ := List.mem_map.mp hL
      obtain ⟨x, hx⟩ := List.length_eq_one.mp (hsing pr hpr)
      rw [← hLpr, hx, group_items_by_singleton]
      rfl
    rw [map_length_sum_singletons _ this, List.length_map]
  rw [hflat]
  have hlen : (buildGroups key items).length =
      ((buildGroups key items).map Prod.fst).length := by
    rw [List.length_map]
  rw [hlen]
  unfold buildGroups
  rw [← List.toFinset_card_of_nodup hkeys.1]
  rw [hkeys.2]
  simp only [List.toFinset_nil, List.map_nil, Finset.empty_union]
  rw [List.card_toFinset]
